import Mathlib

/-!
Shallow embedding of `src/specification/src/lib.rs` from the repository
`rust_design_patterns_in_practice` (the specification-pattern crate).

An atomic rule (`trait Specification<T>`, method `is_satisfied_by`) is a pure
predicate on the candidate type, embedded as a Lean function `α → Bool`.
The enum `SpecificationCompositions<T>` becomes an inductive tree; the
`Specification(Arc<dyn Specification<T>>)` variant holds the rule function
itself (the `Arc` is only sharing, invisible to the semantics).
-/

namespace SpecPattern

/-- The enum `SpecificationCompositions<T>` of `lib.rs` (lines 26-35). -/
inductive SpecificationCompositions (α : Type) where
  | Specification (f : α → Bool)
  | And (specifications : List (SpecificationCompositions α))
  | Or (specifications : List (SpecificationCompositions α))
  | Xor (specifications : List (SpecificationCompositions α))
  | Invert (specification : SpecificationCompositions α)
  | True
  | False

/-- The trait-level default builder `Specification::and` (lib.rs lines 7-9):
wraps both bare rules into `Specification` leaves of a fresh binary `And`. -/
def Specification.and (self other : α → Bool) : SpecificationCompositions α :=
  .And [.Specification self, .Specification other]

/-- Trait-level `Specification::or` (lib.rs lines 10-12). -/
def Specification.or (self other : α → Bool) : SpecificationCompositions α :=
  .Or [.Specification self, .Specification other]

/-- Trait-level `Specification::invert` (lib.rs lines 13-15). -/
def Specification.invert (self : α → Bool) : SpecificationCompositions α :=
  .Invert (.Specification self)

/-- Trait-level `Specification::xor` (lib.rs lines 16-18). -/
def Specification.xor (self other : α → Bool) : SpecificationCompositions α :=
  .Xor [.Specification self, .Specification other]

/-- Trait-level `Specification::composite` (lib.rs lines 19-21): wraps a bare
`impl Specification<T>` value into a `Specification` leaf. The wrapped
`Arc<dyn Specification<T>>` is embedded by its one capability, the
`is_satisfied_by` function. This is the method the inherent builders call on
their generic `other` parameter: method calls on a generic parameter resolve
only through the trait bound, so they pick this default, never the inherent
identity `composite` below — even when `other` is itself a composition
node. -/
def Specification.composite (self : α → Bool) : SpecificationCompositions α :=
  .Specification self

namespace SpecificationCompositions

variable {α : Type}

/-- `is_satisfied_by` for `SpecificationCompositions<T>` (lib.rs lines 39-49):
`And` = all children satisfied, `Or` = any child satisfied, `Invert` = negation,
`Xor` = the number of satisfied children is exactly one. -/
def is_satisfied_by : SpecificationCompositions α → α → Bool
  | .Specification f, candidate => f candidate
  | .And specifications, candidate =>
      specifications.attach.all (fun s => is_satisfied_by s.1 candidate)
  | .Or specifications, candidate =>
      specifications.attach.any (fun s => is_satisfied_by s.1 candidate)
  | .Invert specification, candidate => !(is_satisfied_by specification candidate)
  | .Xor specifications, candidate =>
      (specifications.attach.filter (fun s => is_satisfied_by s.1 candidate)).length == 1
  | .True, _ => true
  | .False, _ => false
decreasing_by
  all_goals simp_wf
  all_goals try have := List.sizeOf_lt_of_mem s.2
  all_goals simp_all
  all_goals omega

/-- The inherent `const fn composite(self) -> Self { self }` (lib.rs lines
102-104): the identity. A direct call on a concrete
`SpecificationCompositions` receiver resolves here (inherent methods beat
trait methods on concrete receivers); only the generic `other` parameters
inside the inherent builders resolve to the leaf-wrapping trait default
instead. -/
def composite (self : SpecificationCompositions α) : SpecificationCompositions α :=
  self

/-- `SpecificationCompositions::and` (lib.rs lines 53-67). The method starts
with `let other = other.composite();` on the generic parameter
`other: impl Specification<T>`; that call resolves through the trait bound to
the default `Specification::composite` (lib.rs lines 19-21), which wraps
`other` in a fresh `Specification` leaf — even when `other` is itself a
composition node. The inner `And` match arm of the source is therefore dead
code (the wrapped `other` is always the `Specification` variant); it is kept
here to mirror the source text. -/
def and (self : SpecificationCompositions α) (other : SpecificationCompositions α) :
    SpecificationCompositions α :=
  let other := Specification.composite other.is_satisfied_by
  match self with
  | .And specifications =>
      match other with
      | .And other_specifications => .And (specifications ++ other_specifications)
      | _ => .And (specifications ++ [other])
  | _ => .And [self, other]

/-- `SpecificationCompositions::or` (lib.rs lines 68-82); `other.composite()`
resolves to the leaf-wrapping trait default exactly as in `and`, so the inner
`Or` splice arm is dead code, kept to mirror the source. -/
def or (self : SpecificationCompositions α) (other : SpecificationCompositions α) :
    SpecificationCompositions α :=
  let other := Specification.composite other.is_satisfied_by
  match self with
  | .Or specifications =>
      match other with
      | .Or other_specifications => .Or (specifications ++ other_specifications)
      | _ => .Or (specifications ++ [other])
  | _ => .Or [self, other]

/-- `SpecificationCompositions::xor` (lib.rs lines 83-97); `other.composite()`
resolves to the leaf-wrapping trait default exactly as in `and`, so the inner
`Xor` splice arm is dead code, kept to mirror the source. -/
def xor (self : SpecificationCompositions α) (other : SpecificationCompositions α) :
    SpecificationCompositions α :=
  let other := Specification.composite other.is_satisfied_by
  match self with
  | .Xor specifications =>
      match other with
      | .Xor other_specifications => .Xor (specifications ++ other_specifications)
      | _ => .Xor (specifications ++ [other])
  | _ => .Xor [self, other]

/-- `SpecificationCompositions::invert` (lib.rs lines 98-100). -/
def invert (self : SpecificationCompositions α) : SpecificationCompositions α :=
  .Invert self

/-- `reminder_unsatisfied_by` (lib.rs lines 106-169). For `And`/`Or`/`Xor` the
Rust loop pushes, for every child that is not satisfied, that child's own
reminder when it is `Some`; this is `List.filterMap`. An empty collection gives
`none`, a singleton is returned unwrapped, otherwise the collection is wrapped
in the same operator kind. -/
def reminder_unsatisfied_by : SpecificationCompositions α → α →
    Option (SpecificationCompositions α)
  | .Specification f, candidate =>
      if f candidate then none else some (.Specification f)
  | .And specifications, candidate =>
      match specifications.attach.filterMap (fun s =>
          if is_satisfied_by s.1 candidate then none
          else reminder_unsatisfied_by s.1 candidate) with
      | [] => none
      | [reminder] => some reminder
      | unsatisfied => some (.And unsatisfied)
  | .Or specifications, candidate =>
      match specifications.attach.filterMap (fun s =>
          if is_satisfied_by s.1 candidate then none
          else reminder_unsatisfied_by s.1 candidate) with
      | [] => none
      | [reminder] => some reminder
      | unsatisfied => some (.Or unsatisfied)
  | .Invert specification, candidate =>
      reminder_unsatisfied_by specification candidate
  | .Xor specifications, candidate =>
      match specifications.attach.filterMap (fun s =>
          if is_satisfied_by s.1 candidate then none
          else reminder_unsatisfied_by s.1 candidate) with
      | [] => none
      | [reminder] => some reminder
      | unsatisfied => some (.Xor unsatisfied)
  | .True, _ => none
  | .False, _ => none
decreasing_by
  all_goals simp_wf
  all_goals try have := List.sizeOf_lt_of_mem s.2
  all_goals simp_all
  all_goals omega

end SpecificationCompositions

namespace SpecificationCompositions

/-- The list of reminders collected by the `And`/`Or`/`Xor` arms of
`reminder_unsatisfied_by` (lib.rs lines 114-122, 131-139, 149-157): every child
that is not satisfied contributes its own reminder when that reminder exists. -/
def collect_unsatisfied (specifications : List (SpecificationCompositions α))
    (candidate : α) : List (SpecificationCompositions α) :=
  specifications.filterMap (fun s =>
    if s.is_satisfied_by candidate then none else s.reminder_unsatisfied_by candidate)

@[simp] theorem is_satisfied_by_leaf (f : α → Bool) (c : α) :
    (Specification f).is_satisfied_by c = f c := by
  rw [is_satisfied_by]

@[simp] theorem is_satisfied_by_and (ss : List (SpecificationCompositions α)) (c : α) :
    (And ss).is_satisfied_by c = ss.all (fun s => s.is_satisfied_by c) := by
  rw [is_satisfied_by, Bool.eq_iff_iff, List.all_eq_true, List.all_eq_true]
  exact ⟨fun h x hx => h ⟨x, hx⟩ (List.mem_attach _ _), fun h s _ => h s.1 s.2⟩

@[simp] theorem is_satisfied_by_or (ss : List (SpecificationCompositions α)) (c : α) :
    (Or ss).is_satisfied_by c = ss.any (fun s => s.is_satisfied_by c) := by
  rw [is_satisfied_by, Bool.eq_iff_iff, List.any_eq_true, List.any_eq_true]
  constructor
  · rintro ⟨s, _, hs⟩
    exact ⟨s.1, s.2, hs⟩
  · rintro ⟨x, hx, hgx⟩
    exact ⟨⟨x, hx⟩, List.mem_attach _ _, hgx⟩

@[simp] theorem is_satisfied_by_invert (s : SpecificationCompositions α) (c : α) :
    (Invert s).is_satisfied_by c = !(s.is_satisfied_by c) := by
  rw [is_satisfied_by]

@[simp] theorem is_satisfied_by_xor (ss : List (SpecificationCompositions α)) (c : α) :
    (Xor ss).is_satisfied_by c
      = ((ss.filter (fun s => s.is_satisfied_by c)).length == 1) := by
  rw [is_satisfied_by]
  have h : (ss.attach.filter (fun s => is_satisfied_by s.1 c)).length
      = (ss.filter (fun s => s.is_satisfied_by c)).length := by
    rw [← List.countP_eq_length_filter, ← List.countP_eq_length_filter]
    exact List.countP_attach ss (fun s => s.is_satisfied_by c)
  rw [h]

@[simp] theorem is_satisfied_by_true (c : α) :
    (True : SpecificationCompositions α).is_satisfied_by c = true := by
  rw [is_satisfied_by]

@[simp] theorem is_satisfied_by_false (c : α) :
    (False : SpecificationCompositions α).is_satisfied_by c = false := by
  rw [is_satisfied_by]

/-- The common tail of the `And`/`Or`/`Xor` arms of `reminder_unsatisfied_by`
(lib.rs lines 123-129 etc.): empty collection gives `None`, a singleton is
returned unwrapped, otherwise the collection is wrapped by the node
constructor of the same kind. -/
def wrap_reminders (mk : List (SpecificationCompositions α) → SpecificationCompositions α)
    (unsatisfied : List (SpecificationCompositions α)) :
    Option (SpecificationCompositions α) :=
  match unsatisfied with
  | [] => none
  | [reminder] => some reminder
  | unsatisfied => some (mk unsatisfied)

theorem reminder_leaf (f : α → Bool) (c : α) :
    (Specification f).reminder_unsatisfied_by c
      = if f c then none else some (Specification f) := by
  rw [reminder_unsatisfied_by]

theorem attach_filterMap_reminder (ss : List (SpecificationCompositions α)) (c : α) :
    (ss.attach.filterMap (fun s =>
        if is_satisfied_by s.1 c then none else reminder_unsatisfied_by s.1 c))
      = collect_unsatisfied ss c := by
  rw [collect_unsatisfied]
  simp

theorem reminder_and (ss : List (SpecificationCompositions α)) (c : α) :
    (And ss).reminder_unsatisfied_by c
      = wrap_reminders And (collect_unsatisfied ss c) := by
  rw [reminder_unsatisfied_by, attach_filterMap_reminder]
  cases hL : collect_unsatisfied ss c with
  | nil => rfl
  | cons a t => cases t <;> rfl

theorem reminder_or (ss : List (SpecificationCompositions α)) (c : α) :
    (Or ss).reminder_unsatisfied_by c
      = wrap_reminders Or (collect_unsatisfied ss c) := by
  rw [reminder_unsatisfied_by, attach_filterMap_reminder]
  cases hL : collect_unsatisfied ss c with
  | nil => rfl
  | cons a t => cases t <;> rfl

theorem reminder_xor (ss : List (SpecificationCompositions α)) (c : α) :
    (Xor ss).reminder_unsatisfied_by c
      = wrap_reminders Xor (collect_unsatisfied ss c) := by
  rw [reminder_unsatisfied_by, attach_filterMap_reminder]
  cases hL : collect_unsatisfied ss c with
  | nil => rfl
  | cons a t => cases t <;> rfl

theorem reminder_invert (s : SpecificationCompositions α) (c : α) :
    (Invert s).reminder_unsatisfied_by c = s.reminder_unsatisfied_by c := by
  rw [reminder_unsatisfied_by]

theorem reminder_true (c : α) :
    (True : SpecificationCompositions α).reminder_unsatisfied_by c = none := by
  rw [reminder_unsatisfied_by]

theorem reminder_false (c : α) :
    (False : SpecificationCompositions α).reminder_unsatisfied_by c = none := by
  rw [reminder_unsatisfied_by]

/-- The atomic rule `GreaterThan { value: 5 }` of the crate's tests:
`candidate > &self.value`. -/
def greater_than_5 : Int → Bool := fun candidate => 5 < candidate

/-- The atomic rule `LessThan { value: 10 }` of the crate's tests. -/
def less_than_10 : Int → Bool := fun candidate => candidate < 10

/-- A constantly satisfied atomic rule, for concrete instances. -/
def always_true : Unit → Bool := fun _ => true

/-- A constantly unsatisfied atomic rule, for concrete instances. -/
def always_false : Unit → Bool := fun _ => false

/-- Does the node carry the `Xor` tag? -/
def isXor : SpecificationCompositions α → Bool
  | .Xor _ => true
  | _ => false

/-- Trees made only of `Specification` leaves and `And` nodes (the fragment of
the node language on which the remainder algorithm is complete). -/
def and_only : SpecificationCompositions α → Bool
  | .Specification _ => true
  | .And specifications => specifications.attach.all (fun s => and_only s.1)
  | _ => false
decreasing_by
  all_goals simp_wf
  all_goals try have := List.sizeOf_lt_of_mem s.2
  all_goals simp_all
  all_goals omega

/-- Every `And`/`Or`/`Xor` node anywhere in the tree has at least two
children. -/
def min_two_children : SpecificationCompositions α → Bool
  | .Specification _ => true
  | .And specifications =>
      decide (2 ≤ specifications.length)
        && specifications.attach.all (fun s => min_two_children s.1)
  | .Or specifications =>
      decide (2 ≤ specifications.length)
        && specifications.attach.all (fun s => min_two_children s.1)
  | .Xor specifications =>
      decide (2 ≤ specifications.length)
        && specifications.attach.all (fun s => min_two_children s.1)
  | .Invert specification => min_two_children specification
  | .True => true
  | .False => true
decreasing_by
  all_goals simp_wf
  all_goals try have := List.sizeOf_lt_of_mem s.2
  all_goals simp_all
  all_goals omega

/-- Nodes reachable through the builder API: atomic rules wrapped by
`composite` (the trait default, lib.rs lines 19-21), the constants, and the
combinators `and`/`or`/`xor`/`invert` over previously built nodes. -/
inductive Built : SpecificationCompositions α → Prop where
  | leaf (f : α → Bool) : Built (Specification f)
  | true_node : Built True
  | false_node : Built False
  | and {a b : SpecificationCompositions α} :
      Built a → Built b → Built (a.and b)
  | or {a b : SpecificationCompositions α} :
      Built a → Built b → Built (a.or b)
  | xor {a b : SpecificationCompositions α} :
      Built a → Built b → Built (a.xor b)
  | invert {a : SpecificationCompositions α} :
      Built a → Built a.invert

theorem wrap_reminders_eq_some
    {mk : List (SpecificationCompositions α) → SpecificationCompositions α}
    {L : List (SpecificationCompositions α)} {r : SpecificationCompositions α}
    (h : wrap_reminders mk L = some r) :
    r ∈ L ∨ (r = mk L ∧ L ≠ []) := by
  match L with
  | [] => cases h
  | [a] =>
      left
      have h2 : some a = some r := h
      cases h2
      exact List.mem_singleton.mpr rfl
  | a :: b :: t =>
      right
      have h2 : some (mk (a :: b :: t)) = some r := h
      cases h2
      exact ⟨rfl, by simp⟩

theorem wrap_reminders_eq_none
    {mk : List (SpecificationCompositions α) → SpecificationCompositions α}
    {L : List (SpecificationCompositions α)} :
    wrap_reminders mk L = none ↔ L = [] := by
  match L with
  | [] => simp [wrap_reminders]
  | [a] => simp [wrap_reminders]
  | a :: b :: t => simp [wrap_reminders]

theorem mem_collect_unsatisfied {ss : List (SpecificationCompositions α)} {x : α}
    {r : SpecificationCompositions α} :
    r ∈ collect_unsatisfied ss x ↔
      ∃ s, s ∈ ss ∧ s.is_satisfied_by x = false
        ∧ s.reminder_unsatisfied_by x = some r := by
  rw [collect_unsatisfied, List.mem_filterMap]
  constructor
  · rintro ⟨s, hs, hsome⟩
    by_cases hsat : s.is_satisfied_by x
    · rw [if_pos hsat] at hsome
      cases hsome
    · rw [if_neg hsat] at hsome
      exact ⟨s, hs, Bool.not_eq_true _ ▸ Bool.of_not_eq_true hsat, hsome⟩
  · rintro ⟨s, hs, hsat, hrem⟩
    refine ⟨s, hs, ?_⟩
    rw [if_neg (by simp [hsat]), hrem]

theorem collect_unsatisfied_eq_nil {ss : List (SpecificationCompositions α)} {x : α} :
    collect_unsatisfied ss x = [] ↔
      ∀ s ∈ ss, s.is_satisfied_by x = true ∨ s.reminder_unsatisfied_by x = none := by
  rw [collect_unsatisfied, List.filterMap_eq_nil_iff]
  constructor
  · intro h s hs
    by_cases hsat : s.is_satisfied_by x
    · exact Or.inl hsat
    · have := h s hs
      rw [if_neg hsat] at this
      exact Or.inr this
  · intro h s hs
    rcases h s hs with hsat | hnone
    · rw [if_pos hsat]
    · by_cases hsat : s.is_satisfied_by x
      · rw [if_pos hsat]
      · rw [if_neg hsat]
        exact hnone

theorem sizeOf_mem_le {ss : List (SpecificationCompositions α)}
    {s : SpecificationCompositions α} {k : Nat}
    (hs : s ∈ ss) (hn : 1 + sizeOf ss ≤ k + 1) : sizeOf s ≤ k := by
  have h1 := List.sizeOf_lt_of_mem hs
  omega

/-- Remainder soundness, proved by induction on a size bound: whenever
`reminder_unsatisfied_by` returns a sub-tree, that sub-tree evaluates false
against the same candidate. -/
theorem reminder_sound_aux :
    ∀ (k : Nat) (n : SpecificationCompositions α), sizeOf n ≤ k →
      ∀ (x : α) (r : SpecificationCompositions α),
        n.reminder_unsatisfied_by x = some r → r.is_satisfied_by x = false := by
  intro k
  induction k with
  | zero =>
      intro n hn
      exfalso
      cases n <;> simp at hn
  | succ k ih =>
      intro n hn x r h
      have hcollect : ∀ (ss : List (SpecificationCompositions α)),
          1 + sizeOf ss ≤ k + 1 →
          ∀ q ∈ collect_unsatisfied ss x, q.is_satisfied_by x = false := by
        intro ss hss q hq
        rw [mem_collect_unsatisfied] at hq
        obtain ⟨s, hs, _, hrem⟩ := hq
        exact ih s (sizeOf_mem_le hs hss) x q hrem
      cases n with
      | Specification f =>
          rw [reminder_leaf] at h
          by_cases hf : f x
          · rw [if_pos hf] at h
            cases h
          · rw [if_neg hf] at h
            cases h
            simp [hf]
      | And ss =>
          simp only [And.sizeOf_spec] at hn
          rw [reminder_and] at h
          rcases wrap_reminders_eq_some h with hr | ⟨hr, hne⟩
          · exact hcollect ss hn r hr
          · subst hr
            obtain ⟨q, hq⟩ := List.exists_mem_of_ne_nil _ hne
            rw [is_satisfied_by_and, List.all_eq_false]
            exact ⟨q, hq, by simp [hcollect ss hn q hq]⟩
      | Or ss =>
          simp only [Or.sizeOf_spec] at hn
          rw [reminder_or] at h
          rcases wrap_reminders_eq_some h with hr | ⟨hr, _⟩
          · exact hcollect ss hn r hr
          · subst hr
            rw [is_satisfied_by_or, List.any_eq_false]
            intro q hq
            simp [hcollect ss hn q hq]
      | Xor ss =>
          simp only [Xor.sizeOf_spec] at hn
          rw [reminder_xor] at h
          rcases wrap_reminders_eq_some h with hr | ⟨hr, _⟩
          · exact hcollect ss hn r hr
          · subst hr
            rw [is_satisfied_by_xor]
            have hfilter : (collect_unsatisfied ss x).filter
                (fun s => s.is_satisfied_by x) = [] := by
              rw [List.filter_eq_nil_iff]
              intro q hq
              simp [hcollect ss hn q hq]
            rw [hfilter]
            rfl
      | Invert s =>
          simp only [Invert.sizeOf_spec] at hn
          rw [reminder_invert] at h
          exact ih s (by omega) x r h
      | True =>
          rw [reminder_true] at h
          cases h
      | False =>
          rw [reminder_false] at h
          cases h

@[simp] theorem and_only_leaf (f : α → Bool) :
    (Specification f : SpecificationCompositions α).and_only = true := by
  rw [and_only]

@[simp] theorem and_only_and (ss : List (SpecificationCompositions α)) :
    (And ss).and_only = ss.all (fun s => s.and_only) := by
  rw [and_only, Bool.eq_iff_iff, List.all_eq_true, List.all_eq_true]
  exact ⟨fun h x hx => h ⟨x, hx⟩ (List.mem_attach _ _), fun h s _ => h s.1 s.2⟩

theorem min_two_children_all {ss : List (SpecificationCompositions α)}
    (h : ∀ s ∈ ss, s.min_two_children = true) :
    ss.attach.all (fun s => min_two_children s.1) = true := by
  rw [List.all_eq_true]
  exact fun s _ => h s.1 s.2

theorem min_two_children_and_node {ss : List (SpecificationCompositions α)} :
    (And ss).min_two_children
      = (decide (2 ≤ ss.length) && ss.all (fun s => s.min_two_children)) := by
  rw [min_two_children]
  congr 1
  rw [Bool.eq_iff_iff, List.all_eq_true, List.all_eq_true]
  exact ⟨fun h x hx => h ⟨x, hx⟩ (List.mem_attach _ _), fun h s _ => h s.1 s.2⟩

theorem min_two_children_or_node {ss : List (SpecificationCompositions α)} :
    (Or ss).min_two_children
      = (decide (2 ≤ ss.length) && ss.all (fun s => s.min_two_children)) := by
  rw [min_two_children]
  congr 1
  rw [Bool.eq_iff_iff, List.all_eq_true, List.all_eq_true]
  exact ⟨fun h x hx => h ⟨x, hx⟩ (List.mem_attach _ _), fun h s _ => h s.1 s.2⟩

theorem min_two_children_xor_node {ss : List (SpecificationCompositions α)} :
    (Xor ss).min_two_children
      = (decide (2 ≤ ss.length) && ss.all (fun s => s.min_two_children)) := by
  rw [min_two_children]
  congr 1
  rw [Bool.eq_iff_iff, List.all_eq_true, List.all_eq_true]
  exact ⟨fun h x hx => h ⟨x, hx⟩ (List.mem_attach _ _), fun h s _ => h s.1 s.2⟩

theorem eval_and_builder (a b : SpecificationCompositions α) (x : α) :
    (a.and b).is_satisfied_by x = (a.is_satisfied_by x && b.is_satisfied_by x) := by
  cases a <;>
    simp [and, Specification.composite, List.all_append]

theorem eval_or_builder (a b : SpecificationCompositions α) (x : α) :
    (a.or b).is_satisfied_by x = (a.is_satisfied_by x || b.is_satisfied_by x) := by
  cases a <;>
    simp [or, Specification.composite, List.any_append]

theorem eval_xor_pair (a b : SpecificationCompositions α) (x : α)
    (h : a.isXor = false) :
    (a.xor b).is_satisfied_by x
      = ((a.is_satisfied_by x) != (b.is_satisfied_by x)) := by
  have hx : a.xor b = Xor [a, Specification b.is_satisfied_by] := by
    cases a <;> simp [isXor] at h <;> rfl
  rw [hx, is_satisfied_by_xor]
  cases ha : a.is_satisfied_by x <;> cases hb : b.is_satisfied_by x <;>
    simp [List.filter, ha, hb]

@[simp] theorem and_only_or (ss : List (SpecificationCompositions α)) :
    (Or ss).and_only = false := by
  rw [and_only]
  all_goals intro _ h; cases h

@[simp] theorem and_only_xor (ss : List (SpecificationCompositions α)) :
    (Xor ss).and_only = false := by
  rw [and_only]
  all_goals intro _ h; cases h

@[simp] theorem and_only_invert (s : SpecificationCompositions α) :
    (Invert s).and_only = false := by
  rw [and_only]
  all_goals intro _ h; cases h

@[simp] theorem and_only_true :
    (True : SpecificationCompositions α).and_only = false := by
  rw [and_only]
  all_goals intro _ h; cases h

@[simp] theorem and_only_false :
    (False : SpecificationCompositions α).and_only = false := by
  rw [and_only]
  all_goals intro _ h; cases h

/-- On `Leaf`/`And`-only trees the remainder is `none` exactly when the node is
satisfied, proved by induction on a size bound. -/
theorem reminder_none_iff_aux :
    ∀ (k : Nat) (n : SpecificationCompositions α), sizeOf n ≤ k →
      n.and_only = true → ∀ x : α,
      (n.reminder_unsatisfied_by x = none ↔ n.is_satisfied_by x = true) := by
  intro k
  induction k with
  | zero =>
      intro n hn
      exfalso
      cases n <;> simp at hn
  | succ k ih =>
      intro n hn ha x
      cases n with
      | Specification f =>
          rw [reminder_leaf, is_satisfied_by_leaf]
          by_cases hf : f x
          · simp [hf]
          · simp [hf]
      | And ss =>
          simp only [And.sizeOf_spec] at hn
          rw [and_only_and, List.all_eq_true] at ha
          rw [reminder_and, wrap_reminders_eq_none, is_satisfied_by_and,
            collect_unsatisfied_eq_nil, List.all_eq_true]
          constructor
          · intro h s hs
            rcases h s hs with hsat | hnone
            · exact hsat
            · exact (ih s (sizeOf_mem_le hs hn) (ha s hs) x).mp hnone
          · intro h s hs
            exact Or.inl (h s hs)
      | Or ss => simp at ha
      | Xor ss => simp at ha
      | Invert s => simp at ha
      | True => simp at ha
      | False => simp at ha

/-- The builder combinators keep every `And`/`Or`/`Xor` child list at length
at least two: the step lemma for `and`. -/
theorem min_two_children_and_step {a b : SpecificationCompositions α}
    (ha : a.min_two_children = true) (_hb : b.min_two_children = true) :
    (a.and b).min_two_children = true := by
  cases a <;>
    simp_all [and, Specification.composite, min_two_children_and_node,
      min_two_children_or_node, min_two_children_xor_node, min_two_children,
      List.all_append, List.length_append] <;>
    omega

/-- Step lemma for `or`. -/
theorem min_two_children_or_step {a b : SpecificationCompositions α}
    (ha : a.min_two_children = true) (_hb : b.min_two_children = true) :
    (a.or b).min_two_children = true := by
  cases a <;>
    simp_all [or, Specification.composite, min_two_children_and_node,
      min_two_children_or_node, min_two_children_xor_node, min_two_children,
      List.all_append, List.length_append] <;>
    omega

/-- Step lemma for `xor`. -/
theorem min_two_children_xor_step {a b : SpecificationCompositions α}
    (ha : a.min_two_children = true) (_hb : b.min_two_children = true) :
    (a.xor b).min_two_children = true := by
  cases a <;>
    simp_all [xor, Specification.composite, min_two_children_and_node,
      min_two_children_or_node, min_two_children_xor_node, min_two_children,
      List.all_append, List.length_append] <;>
    omega

/-- C1 counterexample: the node `always_true.or(always_false)` (built through
the provided builders over pure atomic rules) is satisfied by `()`, yet
`reminder_unsatisfied_by` still returns a sub-tree — the unsatisfied child is
collected even though the parent `Or` evaluates true, so "returns nothing iff
`evaluate` is true" fails as stated. -/
theorem satisfied_or_with_reminder :
    (Specification.or always_true always_false).is_satisfied_by () = true
  ∧ (Specification.or always_true always_false).reminder_unsatisfied_by () ≠ none := by
  constructor
  · rw [Specification.or]
    simp [always_true]
  · rw [Specification.or, reminder_or]
    have hc : collect_unsatisfied [Specification always_true, Specification always_false] ()
        = [Specification always_false] := by
      rw [collect_unsatisfied]
      simp [always_true, always_false, reminder_leaf]
    rw [hc]
    simp [wrap_reminders]

/-- C1 (amended): on nodes built from atomic leaves using only `and`
(`Leaf`/`And` trees), `reminder_unsatisfied_by(node, x)` returns nothing if and
only if `is_satisfied_by(node, x)` is true. -/
theorem reminder_none_iff_satisfied (n : SpecificationCompositions α)
    (h : n.and_only = true) (x : α) :
    n.reminder_unsatisfied_by x = none ↔ n.is_satisfied_by x = true :=
  reminder_none_iff_aux (sizeOf n) n le_rfl h x

theorem reminder_none_iff_satisfied_witness :
    (Specification.and greater_than_5 less_than_10).and_only = true
  ∧ ((Specification.and greater_than_5 less_than_10).reminder_unsatisfied_by 6 = none
      ↔ (Specification.and greater_than_5 less_than_10).is_satisfied_by 6 = true) := by
  have h : (Specification.and greater_than_5 less_than_10).and_only = true := by
    rw [Specification.and]
    simp
  exact ⟨h, reminder_none_iff_satisfied _ h 6⟩

/-- C2: whenever `reminder_unsatisfied_by(node, x)` returns a node `r`, that
node evaluates false against the same candidate: `is_satisfied_by(r, x)` is
false. -/
theorem reminder_sound (n : SpecificationCompositions α) (x : α)
    (r : SpecificationCompositions α) (h : n.reminder_unsatisfied_by x = some r) :
    r.is_satisfied_by x = false :=
  reminder_sound_aux (sizeOf n) n le_rfl x r h

theorem reminder_sound_witness :
    (Specification.and greater_than_5 less_than_10).reminder_unsatisfied_by 3
        = some (Specification greater_than_5)
  ∧ (Specification greater_than_5).is_satisfied_by 3 = false := by
  have h : (Specification.and greater_than_5 less_than_10).reminder_unsatisfied_by 3
      = some (Specification greater_than_5) := by
    rw [Specification.and, reminder_and]
    have hc : collect_unsatisfied
        [Specification greater_than_5, Specification less_than_10] (3 : Int)
        = [Specification greater_than_5] := by
      rw [collect_unsatisfied]
      simp [greater_than_5, less_than_10, reminder_leaf]
    rw [hc]
    rfl
  exact ⟨h, reminder_sound _ 3 _ h⟩

/-- C3: an `Xor` node is satisfied exactly when precisely one of its children
is satisfied; in particular a three-child `Xor` whose children are all
satisfied evaluates false, although its satisfied count is odd — so `Xor` is
not the parity function. -/
theorem xor_exactly_one_not_parity (cs : List (SpecificationCompositions α)) (x : α) :
    ((Xor cs).is_satisfied_by x = true ↔
        (cs.filter (fun s => s.is_satisfied_by x)).length = 1)
  ∧ (Xor [True, True, True] : SpecificationCompositions α).is_satisfied_by x = false := by
  constructor
  · rw [is_satisfied_by_xor]
    simp
  · rw [is_satisfied_by_xor]
    simp [List.filter]

/-- C4 counterexample: with three constantly-true atomic rules,
`(p.xor(q)).xor(r)` flattens to a three-child `Xor` that evaluates false,
while exactly one of the two operand nodes is satisfied — so the binary
exactly-one law does not survive flattening on an `Xor` left operand. -/
theorem xor_builder_law_fails :
    ((Specification.xor always_true always_true).xor
        (Specification.composite always_true)).is_satisfied_by () = false
  ∧ (((Specification.xor always_true always_true).is_satisfied_by ())
      != ((Specification.composite always_true).is_satisfied_by ())) = true := by
  constructor
  · rw [Specification.xor, Specification.composite]
    have hx : (Xor [Specification always_true, Specification always_true] :
        SpecificationCompositions Unit).xor (Specification always_true)
        = Xor [Specification always_true, Specification always_true,
            Specification ((Specification always_true :
              SpecificationCompositions Unit).is_satisfied_by)] := rfl
    rw [hx, is_satisfied_by_xor]
    simp [List.filter, always_true]
  · rw [Specification.xor, Specification.composite, is_satisfied_by_xor]
    simp [List.filter, always_true]

/-- C4 (amended): for all nodes `a`, `b` and candidates `x`, the `and` builder
satisfies the conjunction law and the `or` builder the disjunction law; the
`xor` builder satisfies the exactly-one law whenever `a` is not itself an
`Xor` node (when `a` is an `Xor`, flattening merges the children and the
binary law can fail, see the counterexample). -/
theorem builder_eval_laws (a b : SpecificationCompositions α) (x : α) :
    (a.and b).is_satisfied_by x = (a.is_satisfied_by x && b.is_satisfied_by x)
  ∧ (a.or b).is_satisfied_by x = (a.is_satisfied_by x || b.is_satisfied_by x)
  ∧ (a.isXor = false →
      (a.xor b).is_satisfied_by x
        = ((a.is_satisfied_by x) != (b.is_satisfied_by x))) :=
  ⟨eval_and_builder a b x, eval_or_builder a b x, fun h => eval_xor_pair a b x h⟩

theorem builder_eval_laws_witness :
    ((Specification greater_than_5).and (Specification less_than_10)).is_satisfied_by 7
        = ((Specification greater_than_5).is_satisfied_by 7
            && (Specification less_than_10).is_satisfied_by 7)
  ∧ ((Specification greater_than_5).or (Specification less_than_10)).is_satisfied_by 7
        = ((Specification greater_than_5).is_satisfied_by 7
            || (Specification less_than_10).is_satisfied_by 7)
  ∧ ((Specification greater_than_5).xor (Specification less_than_10)).is_satisfied_by 7
        = (((Specification greater_than_5).is_satisfied_by 7)
            != ((Specification less_than_10).is_satisfied_by 7)) := by
  obtain ⟨h1, h2, h3⟩ :=
    builder_eval_laws (Specification greater_than_5) (Specification less_than_10) (7 : Int)
  exact ⟨h1, h2, h3 rfl⟩

/-- C5 counterexample: inside the inherent builders `other.composite()`
resolves through the generic bound to the leaf-wrapping trait default, so
combining `And(a,b)` with `And(c,d)` yields a three-child node whose last
child is a fresh `Specification` leaf around the second `And` — not the
four-child splice `And(a,b,c,d)` — and combining with `Or(c,d)` does not keep
the `Or` node itself as a child either: both structural equations of the
claim fail at these concrete nodes. -/
theorem builder_splice_fails :
    ((And [Specification always_true, Specification always_true]).and
        (And [Specification always_true, Specification always_true])
      ≠ And [Specification always_true, Specification always_true,
          Specification always_true, Specification always_true])
  ∧ ((And [Specification always_true, Specification always_true]).and
        (Or [Specification always_true, Specification always_true])
      ≠ And [Specification always_true, Specification always_true,
          Or [Specification always_true, Specification always_true]]) := by
  constructor
  · intro h
    simp [and, Specification.composite] at h
  · intro h
    simp [and, Specification.composite] at h

/-- C5 (amended): flattening happens only on the left receiver — an
`And`/`Or`/`Xor` receiver extends its own child list by exactly one pushed
child — and the pushed child is always the trait-default `composite`
leaf-wrap of the combined node (a `Specification` leaf holding its
`is_satisfied_by`), whatever its kind: same-kind splicing never occurs and
other operator kinds are wrapped rather than kept as bare children, for
`and`, `or` and `xor` alike. -/
theorem builder_pushes_leaf_wrapped (a b c : SpecificationCompositions α) :
    (And [a, b]).and c = And [a, b, Specification c.is_satisfied_by]
  ∧ (Or [a, b]).or c = Or [a, b, Specification c.is_satisfied_by]
  ∧ (Xor [a, b]).xor c = Xor [a, b, Specification c.is_satisfied_by] :=
  ⟨rfl, rfl, rfl⟩

/-- C6: flattening associativity of `and` — `and(and(a,b),c)` and
`and(a,and(b,c))` evaluate identically against every candidate. -/
theorem and_flattening_assoc (a b c : SpecificationCompositions α) (x : α) :
    ((a.and b).and c).is_satisfied_by x = (a.and (b.and c)).is_satisfied_by x := by
  rw [eval_and_builder, eval_and_builder, eval_and_builder, eval_and_builder,
    Bool.and_assoc]

/-- C7 counterexample: with `child = always_true.or(always_false)`, the child
is satisfied by `()` (so `Invert(child)` evaluates false), yet
`reminder_unsatisfied_by(Invert(child), ())` does not return nothing — it
returns the child's own remainder, which exists because the `Or` collects its
unsatisfied child even while satisfied. -/
theorem invert_satisfied_child_reminder :
    (Specification.or always_true always_false).is_satisfied_by () = true
  ∧ ((Specification.or always_true always_false).invert).reminder_unsatisfied_by ()
      ≠ none := by
  constructor
  · rw [Specification.or]
    simp [always_true]
  · rw [invert, reminder_invert, Specification.or, reminder_or]
    have hc : collect_unsatisfied [Specification always_true, Specification always_false] ()
        = [Specification always_false] := by
      rw [collect_unsatisfied]
      simp [always_true, always_false, reminder_leaf]
    rw [hc]
    simp [wrap_reminders]

/-- C7 (amended): `reminder_unsatisfied_by(Invert(child), x)` always equals
`reminder_unsatisfied_by(child, x)` (pure delegation); in particular when the
child is a satisfied atomic leaf — the case where `Invert` evaluates false —
it returns nothing. -/
theorem invert_reminder_delegates (s : SpecificationCompositions α)
    (f : α → Bool) (x : α) (h : f x = true) :
    (s.invert).reminder_unsatisfied_by x = s.reminder_unsatisfied_by x
  ∧ ((Specification f).invert).reminder_unsatisfied_by x = none := by
  constructor
  · rw [invert, reminder_invert]
  · rw [invert, reminder_invert, reminder_leaf, if_pos h]

theorem invert_reminder_delegates_witness :
    always_true () = true
  ∧ ((Or [Specification always_true, Specification always_false]).invert).reminder_unsatisfied_by ()
      = (Or [Specification always_true, Specification always_false] :
          SpecificationCompositions Unit).reminder_unsatisfied_by ()
  ∧ ((Specification always_true).invert).reminder_unsatisfied_by () = none := by
  obtain ⟨h1, h2⟩ := invert_reminder_delegates
    (Or [Specification always_true, Specification always_false]) always_true () rfl
  exact ⟨rfl, h1, h2⟩

/-- C8: every node produced by the builder operations (starting from atomic
rules wrapped as leaves, the constants, or previously built nodes) has, at
every `And`/`Or`/`Xor` position in its tree, a children list of length at
least two; single-child nodes can only be `Leaf`/`composite` wraps or
`Invert`. -/
theorem built_min_two_children {n : SpecificationCompositions α} (h : Built n) :
    n.min_two_children = true := by
  induction h with
  | leaf f => rw [min_two_children]
  | true_node => rw [min_two_children]
  | false_node => rw [min_two_children]
  | and ha hb iha ihb => exact min_two_children_and_step iha ihb
  | or ha hb iha ihb => exact min_two_children_or_step iha ihb
  | xor ha hb iha ihb => exact min_two_children_xor_step iha ihb
  | invert ha iha =>
      rw [invert, min_two_children]
      exact iha

theorem built_min_two_children_witness :
    Built ((Specification.composite greater_than_5).and
        (Specification.composite less_than_10))
  ∧ ((Specification.composite greater_than_5).and
        (Specification.composite less_than_10)).min_two_children = true := by
  have hb : Built ((Specification.composite greater_than_5).and
      (Specification.composite less_than_10)) :=
    Built.and (Built.leaf greater_than_5) (Built.leaf less_than_10)
  exact ⟨hb, built_min_two_children hb⟩

/-- C9: `invert(invert(a))` is structurally distinct from `a` (the double
`Invert` wrapper is never simplified away), yet semantically equal: both
evaluate identically against every candidate. -/
theorem double_invert_distinct_but_equivalent (a : SpecificationCompositions α)
    (x : α) :
    a.invert.invert ≠ a
  ∧ (a.invert.invert).is_satisfied_by x = a.is_satisfied_by x := by
  constructor
  · intro h
    have hs := congrArg sizeOf h
    simp [invert] at hs
    omega
  · rw [invert, invert, is_satisfied_by_invert, is_satisfied_by_invert,
      Bool.not_not]

/-- C10: `composite` is the identity on already-composite values — it returns
the node unchanged (no fresh leaf wrapper), so wrapping is idempotent and
evaluation is unaffected. -/
theorem composite_identity_on_composites (n : SpecificationCompositions α) (x : α) :
    n.composite = n ∧ n.composite.is_satisfied_by x = n.is_satisfied_by x :=
  ⟨rfl, rfl⟩

end SpecificationCompositions

end SpecPattern
